import Mathlib

/-!
Verification development of the `protoenum` library (package `protoenum`,
files `protoenum.go`, `protoenums.go`, `with_default.go`, `meta.go`,
`internal/utils`).  The Go code is shallowly embedded: Go maps become
association lists with first-match lookup, Go panics (the `must` helpers)
become `Except Err` results whose error kinds follow the library's error
taxonomy (InvalidArgument / DuplicateKey / NotFound / InvalidState /
NoDefaultConfigured), and the generic protobuf enum interface `ProtoEnum`
(exposing `String()` and `Number()`) becomes a concrete record of a number
and a name.
-/

namespace Protoenum

/-- Model of a Protocol Buffer enum value: the `ProtoEnum` interface of
`protoenum.go` exposes `Number() protoreflect.EnumNumber` (an `int32`) and
`String() string`; a value of the interface is modelled as the pair of
those two observations. -/
structure ProtoVal where
  number : Int
  name : String
deriving DecidableEq, Repr

/-- The `Enum[protoEnum, basicEnum, metaType]` struct of `protoenum.go`:
a proto enum value, a Go native (basic) enum value, and opaque metadata. -/
structure Enum (B M : Type) where
  proto : ProtoVal
  basic : B
  meta : M
deriving DecidableEq, Repr

variable {B M : Type}

/-- Accessor `Proto()` of `protoenum.go`. -/
def Enum.Proto (c : Enum B M) : ProtoVal := c.proto

/-- Accessor `Basic()` of `protoenum.go`. -/
def Enum.Basic (c : Enum B M) : B := c.basic

/-- Accessor `Code()` of `protoenum.go`: `int32(c.proto.Number())`; the
conversion is the identity because `EnumNumber` is itself an `int32`. -/
def Enum.Code (c : Enum B M) : Int := c.proto.number

/-- Accessor `Name()` of `protoenum.go`: `c.proto.String()`. -/
def Enum.Name (c : Enum B M) : String := c.proto.name

/-- Error kinds of the library's failure taxonomy; each `must` panic site
in the Go source is classified by the kind of check it performs. -/
inductive Err where
  | invalidArgument
  | duplicateKey
  | notFound
  | invalidState
  | noDefaultConfigured
deriving DecidableEq, Repr

/-- First-match lookup in an association list, modelling a Go map read
`m[k]` (comma-ok form): the registry maps are built with uniqueness checks,
so first-match agrees with the Go map. -/
def mapFind {κ α : Type} [DecidableEq κ] : List (κ × α) → κ → Option α
  | [], _ => none
  | (k, v) :: rest, key => if k = key then some v else mapFind rest key

/-- The `Enums[P, B, M]` struct of `protoenums.go`: ordered elements, four
index maps, the optional default value and the optional valid mark. -/
structure Enums (B M : Type) where
  enumElements : List (Enum B M)
  mapProtoEnum : List (ProtoVal × Enum B M)
  mapCode2Enum : List (Int × Enum B M)
  mapName2Enum : List (String × Enum B M)
  mapBasicEnum : List (B × Enum B M)
  defaultValue : Option (Enum B M)
  defaultValid : Option Bool
deriving Repr, DecidableEq

/-- The validation/insertion loop of `NewEnums`: checks each entry's proto,
code, name and basic key against the maps built so far (`must.Null`, kind
`DuplicateKey`) and inserts the entry under all four keys.  Entries are
non-null by construction in the embedding, so the `must.Full(enum)` check
(kind `InvalidArgument`) cannot fire and is omitted. -/
def insertEnums [DecidableEq B] : List (Enum B M) → Enums B M → Except Err (Enums B M)
  | [], s => .ok s
  | e :: rest, s =>
    if (mapFind s.mapProtoEnum e.Proto).isSome then .error .duplicateKey
    else if (mapFind s.mapCode2Enum e.Code).isSome then .error .duplicateKey
    else if (mapFind s.mapName2Enum e.Name).isSome then .error .duplicateKey
    else if (mapFind s.mapBasicEnum e.Basic).isSome then .error .duplicateKey
    else insertEnums rest
      { s with
        mapProtoEnum := s.mapProtoEnum ++ [(e.Proto, e)]
        mapCode2Enum := s.mapCode2Enum ++ [(e.Code, e)]
        mapName2Enum := s.mapName2Enum ++ [(e.Name, e)]
        mapBasicEnum := s.mapBasicEnum ++ [(e.Basic, e)] }

/-- The struct literal built at the top of `NewEnums`: the cloned element
list, four empty maps, `defaultValue` pre-set to the first parameter when
one exists (`slicetern.V0`, i.e. `params.head?`) and `defaultValid`
unset. -/
def initEnums (params : List (Enum B M)) : Enums B M :=
  { enumElements := params
    mapProtoEnum := []
    mapCode2Enum := []
    mapName2Enum := []
    mapBasicEnum := []
    defaultValue := params.head?
    defaultValid := none }

/-- Constructor `NewEnums` of `protoenums.go`: builds the initial struct
and runs the validation/insertion loop; on a collision the whole
construction fails with `DuplicateKey` and no registry is returned. -/
def NewEnums [DecidableEq B] (params : List (Enum B M)) : Except Err (Enums B M) :=
  insertEnums params (initEnums params)

/-- `GetDefault` of `protoenums.go`: `must.Full(c.defaultValue)`, failing
with kind `NoDefaultConfigured` when no default is set. -/
def Enums.GetDefault (c : Enums B M) : Except Err (Enum B M) :=
  match c.defaultValue with
  | some d => .ok d
  | none => .error .noDefaultConfigured

/-- `GetByProto` of `protoenums.go`: lenient lookup in `mapProtoEnum`,
falling back to `GetDefault` on a miss. -/
def Enums.GetByProto (c : Enums B M) (proto : ProtoVal) : Except Err (Enum B M) :=
  match mapFind c.mapProtoEnum proto with
  | some e => .ok e
  | none => c.GetDefault

/-- `MustGetByProto` of `protoenums.go`: `must.Nice(c.mapProtoEnum[proto])`,
failing with kind `NotFound` on a miss; the default is never consulted. -/
def Enums.MustGetByProto (c : Enums B M) (proto : ProtoVal) : Except Err (Enum B M) :=
  match mapFind c.mapProtoEnum proto with
  | some e => .ok e
  | none => .error .notFound

/-- `GetByCode` of `protoenums.go`: lenient lookup in `mapCode2Enum`,
falling back to `GetDefault` on a miss. -/
def Enums.GetByCode (c : Enums B M) (code : Int) : Except Err (Enum B M) :=
  match mapFind c.mapCode2Enum code with
  | some e => .ok e
  | none => c.GetDefault

/-- `MustGetByCode` of `protoenums.go`: strict lookup, kind `NotFound` on
a miss. -/
def Enums.MustGetByCode (c : Enums B M) (code : Int) : Except Err (Enum B M) :=
  match mapFind c.mapCode2Enum code with
  | some e => .ok e
  | none => .error .notFound

/-- `GetByName` of `protoenums.go`: lenient lookup in `mapName2Enum`,
falling back to `GetDefault` on a miss. -/
def Enums.GetByName (c : Enums B M) (name : String) : Except Err (Enum B M) :=
  match mapFind c.mapName2Enum name with
  | some e => .ok e
  | none => c.GetDefault

/-- `MustGetByName` of `protoenums.go`: strict lookup, kind `NotFound` on
a miss. -/
def Enums.MustGetByName (c : Enums B M) (name : String) : Except Err (Enum B M) :=
  match mapFind c.mapName2Enum name with
  | some e => .ok e
  | none => .error .notFound

/-- `GetByBasic` of `protoenums.go`: lenient lookup in `mapBasicEnum`,
falling back to `GetDefault` on a miss. -/
def Enums.GetByBasic [DecidableEq B] (c : Enums B M) (basic : B) : Except Err (Enum B M) :=
  match mapFind c.mapBasicEnum basic with
  | some e => .ok e
  | none => c.GetDefault

/-- `MustGetByBasic` of `protoenums.go`: strict lookup, kind `NotFound` on
a miss. -/
def Enums.MustGetByBasic [DecidableEq B] (c : Enums B M) (basic : B) : Except Err (Enum B M) :=
  match mapFind c.mapBasicEnum basic with
  | some e => .ok e
  | none => .error .notFound

/-- `GetPointerValue` of `internal/utils`, at type `*bool`: dereference a
possibly-nil pointer, yielding the zero value `false` when nil. -/
def GetPointerValue (v : Option Bool) : Bool :=
  match v with
  | some b => b
  | none => false

/-- `ListProtos` of `protoenums.go`: the `Proto()` projection of the
elements in their defined sequence. -/
def Enums.ListProtos (c : Enums B M) : List ProtoVal :=
  c.enumElements.map Enum.Proto

/-- `ListBasics` of `protoenums.go`: the `Basic()` projection of the
elements in their defined sequence. -/
def Enums.ListBasics (c : Enums B M) : List B :=
  c.enumElements.map Enum.Basic

/-- `ListValidProtos` of `protoenums.go`: when a default is set and
`GetPointerValue(defaultValid)` is false, drop each element whose `Code()`
equals the default's `Code()`; otherwise return `ListProtos`. -/
def Enums.ListValidProtos (c : Enums B M) : List ProtoVal :=
  match c.defaultValue with
  | some d =>
    if GetPointerValue c.defaultValid then c.ListProtos
    else (c.enumElements.filter (fun e => decide (e.Code ≠ d.Code))).map Enum.Proto
  | none => c.ListProtos

/-- `ListValidBasics` of `protoenums.go`: the same filtering, keyed on the
`Basic()` value, projected to `Basic()`. -/
def Enums.ListValidBasics [DecidableEq B] (c : Enums B M) : List B :=
  match c.defaultValue with
  | some d =>
    if GetPointerValue c.defaultValid then c.ListBasics
    else (c.enumElements.filter (fun e => decide (e.Basic ≠ d.Basic))).map Enum.Basic
  | none => c.ListBasics

/-- `SetDefault` of `with_default.go`: `must.Null(c.defaultValue)` (kind
`InvalidState` when a default already exists), then stores the entry and
clears `defaultValid`; membership of the entry in the elements is not
checked. -/
def Enums.SetDefault (c : Enums B M) (enum : Enum B M) : Except Err (Enums B M) :=
  match c.defaultValue with
  | some _ => .error .invalidState
  | none => .ok { c with defaultValue := some enum, defaultValid := none }

/-- `SetDefaultProto` of `with_default.go`: `SetDefault(MustGetByProto p)`,
validating membership by a strict lookup. -/
def Enums.SetDefaultProto (c : Enums B M) (proto : ProtoVal) : Except Err (Enums B M) :=
  match c.MustGetByProto proto with
  | .ok e => c.SetDefault e
  | .error err => .error err

/-- `SetDefaultBasic` of `with_default.go`: `SetDefault(MustGetByBasic b)`,
validating membership by a strict lookup. -/
def Enums.SetDefaultBasic [DecidableEq B] (c : Enums B M) (basic : B) : Except Err (Enums B M) :=
  match c.MustGetByBasic basic with
  | .ok e => c.SetDefault e
  | .error err => .error err

/-- `SetDefaultValid` of `with_default.go`: `must.Full(c.defaultValue)` and
`must.Null(c.defaultValid)` (both kind `InvalidState`), then stores the
flag. -/
def Enums.SetDefaultValid (c : Enums B M) (valid : Bool) : Except Err (Enums B M) :=
  match c.defaultValue with
  | none => .error .invalidState
  | some _ =>
    match c.defaultValid with
    | some _ => .error .invalidState
    | none => .ok { c with defaultValid := some valid }

/-- `UnsetDefault` of `with_default.go`: `must.Full(c.defaultValue)` (kind
`InvalidState` when no default is set), then clears `defaultValue` and
`defaultValid`. -/
def Enums.UnsetDefault (c : Enums B M) : Except Err (Enums B M) :=
  match c.defaultValue with
  | none => .error .invalidState
  | some _ => .ok { c with defaultValue := none, defaultValid := none }

/-- `WithDefault` of `with_default.go`: `SetDefault` returning the
registry. -/
def Enums.WithDefault (c : Enums B M) (enum : Enum B M) : Except Err (Enums B M) :=
  c.SetDefault enum

/-- `WithDefaultProto` of `with_default.go`. -/
def Enums.WithDefaultProto (c : Enums B M) (proto : ProtoVal) : Except Err (Enums B M) :=
  c.SetDefaultProto proto

/-- `WithDefaultBasic` of `with_default.go`. -/
def Enums.WithDefaultBasic [DecidableEq B] (c : Enums B M) (basic : B) : Except Err (Enums B M) :=
  c.SetDefaultBasic basic

/-- `WithDefaultCode` of `with_default.go`: `WithDefault` on
`must.Full(c.mapCode2Enum[code])`, a by-code lookup whose miss is of kind
`NotFound`. -/
def Enums.WithDefaultCode (c : Enums B M) (code : Int) : Except Err (Enums B M) :=
  match mapFind c.mapCode2Enum code with
  | some e => c.WithDefault e
  | none => .error .notFound

/-- `WithDefaultName` of `with_default.go`: `WithDefault` on
`must.Full(c.mapName2Enum[name])`, a by-name lookup whose miss is of kind
`NotFound`. -/
def Enums.WithDefaultName (c : Enums B M) (name : String) : Except Err (Enums B M) :=
  match mapFind c.mapName2Enum name with
  | some e => c.WithDefault e
  | none => .error .notFound

/-- `WithDefaultValid` of `with_default.go`. -/
def Enums.WithDefaultValid (c : Enums B M) (valid : Bool) : Except Err (Enums B M) :=
  c.SetDefaultValid valid

/-- `WithUnsetDefault` of `with_default.go`. -/
def Enums.WithUnsetDefault (c : Enums B M) : Except Err (Enums B M) :=
  c.UnsetDefault

/-- Pairwise key distinctness of entries: distinct codes, names and basic
values (the three caller-visible keys checked at construction). -/
def DistinctKeys (a b : Enum B M) : Prop :=
  a.Code ≠ b.Code ∧ a.Name ≠ b.Name ∧ a.Basic ≠ b.Basic

instance [DecidableEq B] (a b : Enum B M) : Decidable (DistinctKeys a b) := by
  unfold DistinctKeys; infer_instance

/-- Registry states reachable from construction through the library's
default-management operations, each step taken only when the operation
succeeds (a panicking call leaves no new state in Go). -/
inductive Reachable {B M : Type} [DecidableEq B] : Enums B M → Prop where
  | construct (params : List (Enum B M)) (s : Enums B M) :
      NewEnums params = .ok s → Reachable s
  | setDefault (s t : Enums B M) (e : Enum B M) :
      Reachable s → s.SetDefault e = .ok t → Reachable t
  | setDefaultProto (s t : Enums B M) (p : ProtoVal) :
      Reachable s → s.SetDefaultProto p = .ok t → Reachable t
  | setDefaultBasic (s t : Enums B M) (b : B) :
      Reachable s → s.SetDefaultBasic b = .ok t → Reachable t
  | setDefaultValid (s t : Enums B M) (v : Bool) :
      Reachable s → s.SetDefaultValid v = .ok t → Reachable t
  | unsetDefault (s t : Enums B M) :
      Reachable s → s.UnsetDefault = .ok t → Reachable t
  | withDefault (s t : Enums B M) (e : Enum B M) :
      Reachable s → s.WithDefault e = .ok t → Reachable t
  | withDefaultProto (s t : Enums B M) (p : ProtoVal) :
      Reachable s → s.WithDefaultProto p = .ok t → Reachable t
  | withDefaultBasic (s t : Enums B M) (b : B) :
      Reachable s → s.WithDefaultBasic b = .ok t → Reachable t
  | withDefaultCode (s t : Enums B M) (k : Int) :
      Reachable s → s.WithDefaultCode k = .ok t → Reachable t
  | withDefaultName (s t : Enums B M) (n : String) :
      Reachable s → s.WithDefaultName n = .ok t → Reachable t
  | withDefaultValid (s t : Enums B M) (v : Bool) :
      Reachable s → s.WithDefaultValid v = .ok t → Reachable t
  | withUnsetDefault (s t : Enums B M) :
      Reachable s → s.WithUnsetDefault = .ok t → Reachable t

/-- Registry states reachable as in `Reachable`, except that the raw
`SetDefault`/`WithDefault` steps are only taken with an entry that is
already a member of the element list (the keyed variants validate
membership on their own through strict lookups). -/
inductive ReachableMem {B M : Type} [DecidableEq B] : Enums B M → Prop where
  | construct (params : List (Enum B M)) (s : Enums B M) :
      NewEnums params = .ok s → ReachableMem s
  | setDefault (s t : Enums B M) (e : Enum B M) :
      ReachableMem s → e ∈ s.enumElements → s.SetDefault e = .ok t → ReachableMem t
  | setDefaultProto (s t : Enums B M) (p : ProtoVal) :
      ReachableMem s → s.SetDefaultProto p = .ok t → ReachableMem t
  | setDefaultBasic (s t : Enums B M) (b : B) :
      ReachableMem s → s.SetDefaultBasic b = .ok t → ReachableMem t
  | setDefaultValid (s t : Enums B M) (v : Bool) :
      ReachableMem s → s.SetDefaultValid v = .ok t → ReachableMem t
  | unsetDefault (s t : Enums B M) :
      ReachableMem s → s.UnsetDefault = .ok t → ReachableMem t
  | withDefault (s t : Enums B M) (e : Enum B M) :
      ReachableMem s → e ∈ s.enumElements → s.WithDefault e = .ok t → ReachableMem t
  | withDefaultProto (s t : Enums B M) (p : ProtoVal) :
      ReachableMem s → s.WithDefaultProto p = .ok t → ReachableMem t
  | withDefaultBasic (s t : Enums B M) (b : B) :
      ReachableMem s → s.WithDefaultBasic b = .ok t → ReachableMem t
  | withDefaultCode (s t : Enums B M) (k : Int) :
      ReachableMem s → s.WithDefaultCode k = .ok t → ReachableMem t
  | withDefaultName (s t : Enums B M) (n : String) :
      ReachableMem s → s.WithDefaultName n = .ok t → ReachableMem t
  | withDefaultValid (s t : Enums B M) (v : Bool) :
      ReachableMem s → s.WithDefaultValid v = .ok t → ReachableMem t
  | withUnsetDefault (s t : Enums B M) :
      ReachableMem s → s.WithUnsetDefault = .ok t → ReachableMem t

/-- The data-model invariant under scrutiny: the default entry, when
present, is a member of the element list. -/
def DefaultInElements (s : Enums B M) : Prop :=
  ∀ d, s.defaultValue = some d → d ∈ s.enumElements

/-- Auxiliary invariant: every value stored in one of the four index maps
is a member of the element list. -/
def MapsIntoElements [DecidableEq B] (s : Enums B M) : Prop :=
  (∀ k v, mapFind s.mapProtoEnum k = some v → v ∈ s.enumElements) ∧
  (∀ k v, mapFind s.mapCode2Enum k = some v → v ∈ s.enumElements) ∧
  (∀ k v, mapFind s.mapName2Enum k = some v → v ∈ s.enumElements) ∧
  (∀ k v, mapFind s.mapBasicEnum k = some v → v ∈ s.enumElements)

/-- Concrete sample entry (code 0, name UNKNOWN, basic value "unknown"). -/
def sampleE0 : Enum String Unit := ⟨⟨0, "UNKNOWN"⟩, "unknown", ()⟩

/-- Concrete sample entry (code 1, name SUCCESS, basic value "success"). -/
def sampleE1 : Enum String Unit := ⟨⟨1, "SUCCESS"⟩, "success", ()⟩

/-- Concrete sample entry (code 2, name FAILURE, basic value "failure"). -/
def sampleE2 : Enum String Unit := ⟨⟨2, "FAILURE"⟩, "failure", ()⟩

/-- Concrete entry that is deliberately kept outside the sample registry. -/
def sampleOther : Enum String Unit := ⟨⟨5, "OTHER"⟩, "other", ()⟩

/-- The registry built by `NewEnums` from the three sample entries. -/
def sampleRegistry : Enums String Unit :=
  { enumElements := [sampleE0, sampleE1, sampleE2]
    mapProtoEnum := [(sampleE0.Proto, sampleE0), (sampleE1.Proto, sampleE1),
      (sampleE2.Proto, sampleE2)]
    mapCode2Enum := [(0, sampleE0), (1, sampleE1), (2, sampleE2)]
    mapName2Enum := [("UNKNOWN", sampleE0), ("SUCCESS", sampleE1), ("FAILURE", sampleE2)]
    mapBasicEnum := [("unknown", sampleE0), ("success", sampleE1), ("failure", sampleE2)]
    defaultValue := some sampleE0
    defaultValid := none }

/-- The sample registry after its default entry has been removed. -/
def sampleNoDefault : Enums String Unit :=
  { sampleRegistry with defaultValue := none, defaultValid := none }

/-- The sample registry after unset-then-set of the middle entry as
default. -/
def sampleWithE1 : Enums String Unit :=
  { sampleNoDefault with defaultValue := some sampleE1, defaultValid := none }

/-- The sample registry after unset-then-set of the outside entry
`sampleOther` as default: its default is not a member of its elements. -/
def sampleBadDefault : Enums String Unit :=
  { sampleNoDefault with defaultValue := some sampleOther, defaultValid := none }

theorem mapFind_single {κ α : Type} [DecidableEq κ] (k key : κ) (v : α) :
    mapFind [(k, v)] key = if k = key then some v else none := rfl

theorem mapFind_some_append {κ α : Type} [DecidableEq κ] {m : List (κ × α)} {key : κ} {v : α}
    (m' : List (κ × α)) (h : mapFind m key = some v) :
    mapFind (m ++ m') key = some v := by
  induction m with
  | nil => exact absurd h (by simp [mapFind])
  | cons p rest ih =>
    obtain ⟨k', v'⟩ := p
    simp only [mapFind, List.cons_append] at h ⊢
    by_cases hk : k' = key
    · rw [if_pos hk] at h ⊢
      exact h
    · rw [if_neg hk] at h ⊢
      exact ih h

theorem mapFind_none_left {κ α : Type} [DecidableEq κ] {m m' : List (κ × α)} {key : κ}
    (h : mapFind (m ++ m') key = none) : mapFind m key = none := by
  induction m with
  | nil => rfl
  | cons p rest ih =>
    obtain ⟨k', v'⟩ := p
    simp only [mapFind, List.cons_append] at h ⊢
    by_cases hk : k' = key
    · rw [if_pos hk] at h ⊢
      exact h
    · rw [if_neg hk] at h ⊢
      exact ih h

theorem mapFind_append_single_self {κ α : Type} [DecidableEq κ] {m : List (κ × α)} {k : κ}
    (v : α) (h : mapFind m k = none) :
    mapFind (m ++ [(k, v)]) k = some v := by
  induction m with
  | nil => simp [mapFind]
  | cons p rest ih =>
    obtain ⟨k', v'⟩ := p
    simp only [mapFind, List.cons_append] at h ⊢
    by_cases hk : k' = k
    · rw [if_pos hk] at h
      exact absurd h (by simp)
    · rw [if_neg hk] at h ⊢
      exact ih h

theorem mapFind_append_single_ne {κ α : Type} [DecidableEq κ] {m : List (κ × α)} {k key : κ}
    {v : α} (hm : mapFind m key = none) (hk : k ≠ key) :
    mapFind (m ++ [(k, v)]) key = none := by
  induction m with
  | nil => simp [mapFind, hk]
  | cons p rest ih =>
    obtain ⟨k', v'⟩ := p
    simp only [mapFind, List.cons_append] at hm ⊢
    by_cases hkk : k' = key
    · rw [if_pos hkk] at hm ⊢
      exact hm
    · rw [if_neg hkk] at hm ⊢
      exact ih hm

theorem mapFind_append_single_cases {κ α : Type} [DecidableEq κ] {m : List (κ × α)}
    {k key : κ} {v0 v : α} (h : mapFind (m ++ [(k, v0)]) key = some v) :
    mapFind m key = some v ∨ v = v0 := by
  induction m with
  | nil =>
    simp only [List.nil_append, mapFind_single] at h
    by_cases hkk : k = key
    · rw [if_pos hkk] at h
      exact Or.inr (Option.some.inj h).symm
    · rw [if_neg hkk] at h
      exact absurd h (by simp)
  | cons p rest ih =>
    obtain ⟨k', v'⟩ := p
    simp only [mapFind, List.cons_append] at h ⊢
    by_cases hkk : k' = key
    · rw [if_pos hkk] at h ⊢
      exact Or.inl h
    · rw [if_neg hkk] at h ⊢
      exact ih h

theorem insertEnums_cons_elim [DecidableEq B] {a : Enum B M} {rest : List (Enum B M)}
    {s t : Enums B M} (h : insertEnums (a :: rest) s = .ok t) :
    mapFind s.mapProtoEnum a.Proto = none ∧ mapFind s.mapCode2Enum a.Code = none ∧
    mapFind s.mapName2Enum a.Name = none ∧ mapFind s.mapBasicEnum a.Basic = none ∧
    insertEnums rest
      { s with
        mapProtoEnum := s.mapProtoEnum ++ [(a.Proto, a)]
        mapCode2Enum := s.mapCode2Enum ++ [(a.Code, a)]
        mapName2Enum := s.mapName2Enum ++ [(a.Name, a)]
        mapBasicEnum := s.mapBasicEnum ++ [(a.Basic, a)] } = .ok t := by
  simp only [insertEnums] at h
  split_ifs at h with h1 h2 h3 h4
  exact ⟨Option.not_isSome_iff_eq_none.mp h1, Option.not_isSome_iff_eq_none.mp h2,
    Option.not_isSome_iff_eq_none.mp h3, Option.not_isSome_iff_eq_none.mp h4, h⟩

theorem insertEnums_fields [DecidableEq B] {L : List (Enum B M)} {s t : Enums B M}
    (h : insertEnums L s = .ok t) :
    t.enumElements = s.enumElements ∧ t.defaultValue = s.defaultValue ∧
      t.defaultValid = s.defaultValid := by
  induction L generalizing s with
  | nil =>
    simp only [insertEnums] at h
    cases h
    exact ⟨rfl, rfl, rfl⟩
  | cons e rest ih =>
    obtain ⟨_, _, _, _, h'⟩ := insertEnums_cons_elim h
    have hres := ih h'
    exact ⟨hres.1, hres.2.1, hres.2.2⟩

theorem insertEnums_mono [DecidableEq B] {L : List (Enum B M)} {s t : Enums B M}
    (h : insertEnums L s = .ok t) :
    (∀ k v, mapFind s.mapProtoEnum k = some v → mapFind t.mapProtoEnum k = some v) ∧
    (∀ k v, mapFind s.mapCode2Enum k = some v → mapFind t.mapCode2Enum k = some v) ∧
    (∀ k v, mapFind s.mapName2Enum k = some v → mapFind t.mapName2Enum k = some v) ∧
    (∀ k v, mapFind s.mapBasicEnum k = some v → mapFind t.mapBasicEnum k = some v) := by
  induction L generalizing s with
  | nil =>
    simp only [insertEnums] at h
    cases h
    exact ⟨fun _ _ hv => hv, fun _ _ hv => hv, fun _ _ hv => hv, fun _ _ hv => hv⟩
  | cons e rest ih =>
    obtain ⟨_, _, _, _, h'⟩ := insertEnums_cons_elim h
    obtain ⟨hp, hc, hn, hb⟩ := ih h'
    exact ⟨fun k v hv => hp k v (mapFind_some_append _ hv),
           fun k v hv => hc k v (mapFind_some_append _ hv),
           fun k v hv => hn k v (mapFind_some_append _ hv),
           fun k v hv => hb k v (mapFind_some_append _ hv)⟩

theorem insertEnums_fresh [DecidableEq B] {L : List (Enum B M)} {s t : Enums B M}
    (h : insertEnums L s = .ok t) :
    ∀ e ∈ L, mapFind s.mapProtoEnum e.Proto = none ∧ mapFind s.mapCode2Enum e.Code = none ∧
      mapFind s.mapName2Enum e.Name = none ∧ mapFind s.mapBasicEnum e.Basic = none := by
  induction L generalizing s with
  | nil => intro e he; cases he
  | cons a rest ih =>
    obtain ⟨h1, h2, h3, h4, h'⟩ := insertEnums_cons_elim h
    intro e he
    rcases List.mem_cons.mp he with rfl | hmem
    · exact ⟨h1, h2, h3, h4⟩
    · obtain ⟨f1, f2, f3, f4⟩ := ih h' e hmem
      exact ⟨mapFind_none_left f1, mapFind_none_left f2,
        mapFind_none_left f3, mapFind_none_left f4⟩

theorem insertEnums_find [DecidableEq B] {L : List (Enum B M)} {s t : Enums B M}
    (h : insertEnums L s = .ok t) :
    ∀ e ∈ L, mapFind t.mapProtoEnum e.Proto = some e ∧ mapFind t.mapCode2Enum e.Code = some e ∧
      mapFind t.mapName2Enum e.Name = some e ∧ mapFind t.mapBasicEnum e.Basic = some e := by
  induction L generalizing s with
  | nil => intro e he; cases he
  | cons a rest ih =>
    obtain ⟨h1, h2, h3, h4, h'⟩ := insertEnums_cons_elim h
    intro e he
    rcases List.mem_cons.mp he with rfl | hmem
    · obtain ⟨hp, hc, hn, hb⟩ := insertEnums_mono h'
      exact ⟨hp _ _ (mapFind_append_single_self e h1),
        hc _ _ (mapFind_append_single_self e h2),
        hn _ _ (mapFind_append_single_self e h3),
        hb _ _ (mapFind_append_single_self e h4)⟩
    · exact ih h' e hmem

theorem insertEnums_values [DecidableEq B] {L : List (Enum B M)} {s t : Enums B M}
    {U : List (Enum B M)} (h : insertEnums L s = .ok t)
    (hsp : ∀ k v, mapFind s.mapProtoEnum k = some v → v ∈ U)
    (hsc : ∀ k v, mapFind s.mapCode2Enum k = some v → v ∈ U)
    (hsn : ∀ k v, mapFind s.mapName2Enum k = some v → v ∈ U)
    (hsb : ∀ k v, mapFind s.mapBasicEnum k = some v → v ∈ U)
    (hL : ∀ e ∈ L, e ∈ U) :
    (∀ k v, mapFind t.mapProtoEnum k = some v → v ∈ U) ∧
    (∀ k v, mapFind t.mapCode2Enum k = some v → v ∈ U) ∧
    (∀ k v, mapFind t.mapName2Enum k = some v → v ∈ U) ∧
    (∀ k v, mapFind t.mapBasicEnum k = some v → v ∈ U) := by
  induction L generalizing s with
  | nil =>
    simp only [insertEnums] at h
    cases h
    exact ⟨hsp, hsc, hsn, hsb⟩
  | cons a rest ih =>
    obtain ⟨_, _, _, _, h'⟩ := insertEnums_cons_elim h
    have ha : a ∈ U := hL a (List.mem_cons_self a rest)
    refine ih h' ?_ ?_ ?_ ?_ (fun e he => hL e (List.mem_cons_of_mem a he))
    · intro k v hv
      rcases mapFind_append_single_cases hv with hv' | rfl
      · exact hsp k v hv'
      · exact ha
    · intro k v hv
      rcases mapFind_append_single_cases hv with hv' | rfl
      · exact hsc k v hv'
      · exact ha
    · intro k v hv
      rcases mapFind_append_single_cases hv with hv' | rfl
      · exact hsn k v hv'
      · exact ha
    · intro k v hv
      rcases mapFind_append_single_cases hv with hv' | rfl
      · exact hsb k v hv'
      · exact ha

theorem insertEnums_pairwise [DecidableEq B] {L : List (Enum B M)} {s t : Enums B M}
    (h : insertEnums L s = .ok t) : L.Pairwise DistinctKeys := by
  induction L generalizing s with
  | nil => exact List.Pairwise.nil
  | cons a rest ih =>
    obtain ⟨h1, h2, h3, h4, h'⟩ := insertEnums_cons_elim h
    refine List.Pairwise.cons ?_ (ih h')
    intro e he
    obtain ⟨_, f2, f3, f4⟩ := insertEnums_fresh h' e he
    refine ⟨?_, ?_, ?_⟩
    · intro hEq
      rw [← hEq] at f2
      rw [mapFind_append_single_self a h2] at f2
      exact absurd f2 (by simp)
    · intro hEq
      rw [← hEq] at f3
      rw [mapFind_append_single_self a h3] at f3
      exact absurd f3 (by simp)
    · intro hEq
      rw [← hEq] at f4
      rw [mapFind_append_single_self a h4] at f4
      exact absurd f4 (by simp)

theorem insertEnums_ok_of [DecidableEq B] {L : List (Enum B M)} {s : Enums B M}
    (hfresh : ∀ e ∈ L, mapFind s.mapProtoEnum e.Proto = none ∧
      mapFind s.mapCode2Enum e.Code = none ∧ mapFind s.mapName2Enum e.Name = none ∧
      mapFind s.mapBasicEnum e.Basic = none)
    (hp : L.Pairwise DistinctKeys) :
    ∃ t, insertEnums L s = .ok t := by
  induction L generalizing s with
  | nil => exact ⟨s, rfl⟩
  | cons a rest ih =>
    obtain ⟨f1, f2, f3, f4⟩ := hfresh a (List.mem_cons_self a rest)
    obtain ⟨hhead, htail⟩ := List.pairwise_cons.mp hp
    have c1 : ¬((mapFind s.mapProtoEnum a.Proto).isSome = true) := by simp [f1]
    have c2 : ¬((mapFind s.mapCode2Enum a.Code).isSome = true) := by simp [f2]
    have c3 : ¬((mapFind s.mapName2Enum a.Name).isSome = true) := by simp [f3]
    have c4 : ¬((mapFind s.mapBasicEnum a.Basic).isSome = true) := by simp [f4]
    have hrec : ∀ e ∈ rest,
        mapFind ({ s with
          mapProtoEnum := s.mapProtoEnum ++ [(a.Proto, a)]
          mapCode2Enum := s.mapCode2Enum ++ [(a.Code, a)]
          mapName2Enum := s.mapName2Enum ++ [(a.Name, a)]
          mapBasicEnum := s.mapBasicEnum ++ [(a.Basic, a)] } : Enums B M).mapProtoEnum
            e.Proto = none ∧
        mapFind ({ s with
          mapProtoEnum := s.mapProtoEnum ++ [(a.Proto, a)]
          mapCode2Enum := s.mapCode2Enum ++ [(a.Code, a)]
          mapName2Enum := s.mapName2Enum ++ [(a.Name, a)]
          mapBasicEnum := s.mapBasicEnum ++ [(a.Basic, a)] } : Enums B M).mapCode2Enum
            e.Code = none ∧
        mapFind ({ s with
          mapProtoEnum := s.mapProtoEnum ++ [(a.Proto, a)]
          mapCode2Enum := s.mapCode2Enum ++ [(a.Code, a)]
          mapName2Enum := s.mapName2Enum ++ [(a.Name, a)]
          mapBasicEnum := s.mapBasicEnum ++ [(a.Basic, a)] } : Enums B M).mapName2Enum
            e.Name = none ∧
        mapFind ({ s with
          mapProtoEnum := s.mapProtoEnum ++ [(a.Proto, a)]
          mapCode2Enum := s.mapCode2Enum ++ [(a.Code, a)]
          mapName2Enum := s.mapName2Enum ++ [(a.Name, a)]
          mapBasicEnum := s.mapBasicEnum ++ [(a.Basic, a)] } : Enums B M).mapBasicEnum
            e.Basic = none := by
      intro e he
      obtain ⟨g1, g2, g3, g4⟩ := hfresh e (List.mem_cons_of_mem a he)
      obtain ⟨d2, d3, d4⟩ := hhead e he
      refine ⟨mapFind_append_single_ne g1 ?_, mapFind_append_single_ne g2 d2,
        mapFind_append_single_ne g3 d3, mapFind_append_single_ne g4 d4⟩
      intro hEq
      exact d2 (congrArg ProtoVal.number hEq)
    obtain ⟨t, ht⟩ := ih hrec htail
    refine ⟨t, ?_⟩
    simp only [insertEnums]
    rw [if_neg c1, if_neg c2, if_neg c3, if_neg c4]
    exact ht

theorem insertEnums_total [DecidableEq B] (L : List (Enum B M)) (s : Enums B M) :
    (∃ t, insertEnums L s = .ok t) ∨ insertEnums L s = .error .duplicateKey := by
  induction L generalizing s with
  | nil => exact Or.inl ⟨s, rfl⟩
  | cons a rest ih =>
    by_cases h1 : (mapFind s.mapProtoEnum a.Proto).isSome = true
    · refine Or.inr ?_
      simp only [insertEnums]
      rw [if_pos h1]
    · by_cases h2 : (mapFind s.mapCode2Enum a.Code).isSome = true
      · refine Or.inr ?_
        simp only [insertEnums]
        rw [if_neg h1, if_pos h2]
      · by_cases h3 : (mapFind s.mapName2Enum a.Name).isSome = true
        · refine Or.inr ?_
          simp only [insertEnums]
          rw [if_neg h1, if_neg h2, if_pos h3]
        · by_cases h4 : (mapFind s.mapBasicEnum a.Basic).isSome = true
          · refine Or.inr ?_
            simp only [insertEnums]
            rw [if_neg h1, if_neg h2, if_neg h3, if_pos h4]
          · have := ih
              { s with
                mapProtoEnum := s.mapProtoEnum ++ [(a.Proto, a)]
                mapCode2Enum := s.mapCode2Enum ++ [(a.Code, a)]
                mapName2Enum := s.mapName2Enum ++ [(a.Name, a)]
                mapBasicEnum := s.mapBasicEnum ++ [(a.Basic, a)] }
            rcases this with ⟨t, ht⟩ | herr
            · refine Or.inl ⟨t, ?_⟩
              simp only [insertEnums]
              rw [if_neg h1, if_neg h2, if_neg h3, if_neg h4]
              exact ht
            · refine Or.inr ?_
              simp only [insertEnums]
              rw [if_neg h1, if_neg h2, if_neg h3, if_neg h4]
              exact herr

theorem getDefault_found {c : Enums B M} {d : Enum B M} (hd : c.defaultValue = some d) :
    c.GetDefault = .ok d := by
  unfold Enums.GetDefault
  rw [hd]

theorem getDefault_miss {c : Enums B M} (hd : c.defaultValue = none) :
    c.GetDefault = .error .noDefaultConfigured := by
  unfold Enums.GetDefault
  rw [hd]

theorem getByProto_found {c : Enums B M} {p : ProtoVal} {e : Enum B M}
    (hf : mapFind c.mapProtoEnum p = some e) : c.GetByProto p = .ok e := by
  unfold Enums.GetByProto
  rw [hf]

theorem getByProto_miss {c : Enums B M} {p : ProtoVal}
    (hf : mapFind c.mapProtoEnum p = none) : c.GetByProto p = c.GetDefault := by
  unfold Enums.GetByProto
  rw [hf]

theorem getByCode_found {c : Enums B M} {k : Int} {e : Enum B M}
    (hf : mapFind c.mapCode2Enum k = some e) : c.GetByCode k = .ok e := by
  unfold Enums.GetByCode
  rw [hf]

theorem getByCode_miss {c : Enums B M} {k : Int}
    (hf : mapFind c.mapCode2Enum k = none) : c.GetByCode k = c.GetDefault := by
  unfold Enums.GetByCode
  rw [hf]

theorem getByName_found {c : Enums B M} {n : String} {e : Enum B M}
    (hf : mapFind c.mapName2Enum n = some e) : c.GetByName n = .ok e := by
  unfold Enums.GetByName
  rw [hf]

theorem getByName_miss {c : Enums B M} {n : String}
    (hf : mapFind c.mapName2Enum n = none) : c.GetByName n = c.GetDefault := by
  unfold Enums.GetByName
  rw [hf]

theorem getByBasic_found [DecidableEq B] {c : Enums B M} {b : B} {e : Enum B M}
    (hf : mapFind c.mapBasicEnum b = some e) : c.GetByBasic b = .ok e := by
  unfold Enums.GetByBasic
  rw [hf]

theorem getByBasic_miss [DecidableEq B] {c : Enums B M} {b : B}
    (hf : mapFind c.mapBasicEnum b = none) : c.GetByBasic b = c.GetDefault := by
  unfold Enums.GetByBasic
  rw [hf]

theorem mustGetByProto_found {c : Enums B M} {p : ProtoVal} {e : Enum B M}
    (hf : mapFind c.mapProtoEnum p = some e) : c.MustGetByProto p = .ok e := by
  unfold Enums.MustGetByProto
  rw [hf]

theorem mustGetByProto_miss {c : Enums B M} {p : ProtoVal}
    (hf : mapFind c.mapProtoEnum p = none) : c.MustGetByProto p = .error .notFound := by
  unfold Enums.MustGetByProto
  rw [hf]

theorem mustGetByCode_found {c : Enums B M} {k : Int} {e : Enum B M}
    (hf : mapFind c.mapCode2Enum k = some e) : c.MustGetByCode k = .ok e := by
  unfold Enums.MustGetByCode
  rw [hf]

theorem mustGetByCode_miss {c : Enums B M} {k : Int}
    (hf : mapFind c.mapCode2Enum k = none) : c.MustGetByCode k = .error .notFound := by
  unfold Enums.MustGetByCode
  rw [hf]

theorem mustGetByName_found {c : Enums B M} {n : String} {e : Enum B M}
    (hf : mapFind c.mapName2Enum n = some e) : c.MustGetByName n = .ok e := by
  unfold Enums.MustGetByName
  rw [hf]

theorem mustGetByName_miss {c : Enums B M} {n : String}
    (hf : mapFind c.mapName2Enum n = none) : c.MustGetByName n = .error .notFound := by
  unfold Enums.MustGetByName
  rw [hf]

theorem mustGetByBasic_found [DecidableEq B] {c : Enums B M} {b : B} {e : Enum B M}
    (hf : mapFind c.mapBasicEnum b = some e) : c.MustGetByBasic b = .ok e := by
  unfold Enums.MustGetByBasic
  rw [hf]

theorem mustGetByBasic_miss [DecidableEq B] {c : Enums B M} {b : B}
    (hf : mapFind c.mapBasicEnum b = none) : c.MustGetByBasic b = .error .notFound := by
  unfold Enums.MustGetByBasic
  rw [hf]

theorem setDefault_ok_iff (c : Enums B M) (e : Enum B M) (t : Enums B M) :
    c.SetDefault e = .ok t ↔
      c.defaultValue = none ∧ t = { c with defaultValue := some e, defaultValid := none } := by
  unfold Enums.SetDefault
  cases hd : c.defaultValue with
  | some d => simp
  | none => simp [eq_comm]

theorem unsetDefault_ok_iff (c t : Enums B M) :
    c.UnsetDefault = .ok t ↔
      c.defaultValue ≠ none ∧ t = { c with defaultValue := none, defaultValid := none } := by
  unfold Enums.UnsetDefault
  cases hd : c.defaultValue with
  | none => simp
  | some d => simp [eq_comm]

theorem setDefaultValid_ok_iff (c : Enums B M) (v : Bool) (t : Enums B M) :
    c.SetDefaultValid v = .ok t ↔
      c.defaultValue ≠ none ∧ c.defaultValid = none ∧
        t = { c with defaultValid := some v } := by
  unfold Enums.SetDefaultValid
  cases hd : c.defaultValue with
  | none => simp
  | some d =>
    cases hv : c.defaultValid with
    | some b => simp
    | none => simp [eq_comm]

theorem setDefaultProto_eq_found {c : Enums B M} {p : ProtoVal} {e : Enum B M}
    (hf : mapFind c.mapProtoEnum p = some e) : c.SetDefaultProto p = c.SetDefault e := by
  unfold Enums.SetDefaultProto Enums.MustGetByProto
  rw [hf]

theorem setDefaultProto_eq_miss {c : Enums B M} {p : ProtoVal}
    (hf : mapFind c.mapProtoEnum p = none) : c.SetDefaultProto p = .error .notFound := by
  unfold Enums.SetDefaultProto Enums.MustGetByProto
  rw [hf]

theorem setDefaultBasic_eq_found [DecidableEq B] {c : Enums B M} {b : B} {e : Enum B M}
    (hf : mapFind c.mapBasicEnum b = some e) : c.SetDefaultBasic b = c.SetDefault e := by
  unfold Enums.SetDefaultBasic Enums.MustGetByBasic
  rw [hf]

theorem setDefaultBasic_eq_miss [DecidableEq B] {c : Enums B M} {b : B}
    (hf : mapFind c.mapBasicEnum b = none) : c.SetDefaultBasic b = .error .notFound := by
  unfold Enums.SetDefaultBasic Enums.MustGetByBasic
  rw [hf]

theorem withDefaultCode_eq_found {c : Enums B M} {k : Int} {e : Enum B M}
    (hf : mapFind c.mapCode2Enum k = some e) : c.WithDefaultCode k = c.SetDefault e := by
  unfold Enums.WithDefaultCode Enums.WithDefault
  rw [hf]

theorem withDefaultCode_eq_miss {c : Enums B M} {k : Int}
    (hf : mapFind c.mapCode2Enum k = none) : c.WithDefaultCode k = .error .notFound := by
  unfold Enums.WithDefaultCode
  rw [hf]

theorem withDefaultName_eq_found {c : Enums B M} {n : String} {e : Enum B M}
    (hf : mapFind c.mapName2Enum n = some e) : c.WithDefaultName n = c.SetDefault e := by
  unfold Enums.WithDefaultName Enums.WithDefault
  rw [hf]

theorem withDefaultName_eq_miss {c : Enums B M} {n : String}
    (hf : mapFind c.mapName2Enum n = none) : c.WithDefaultName n = .error .notFound := by
  unfold Enums.WithDefaultName
  rw [hf]

theorem setDefaultProto_ok_elim {c : Enums B M} {p : ProtoVal} {t : Enums B M}
    (h : c.SetDefaultProto p = .ok t) :
    ∃ e, mapFind c.mapProtoEnum p = some e ∧ c.SetDefault e = .ok t := by
  cases hf : mapFind c.mapProtoEnum p with
  | some e =>
    rw [setDefaultProto_eq_found hf] at h
    exact ⟨e, rfl, h⟩
  | none =>
    rw [setDefaultProto_eq_miss hf] at h
    exact Except.noConfusion h

theorem setDefaultBasic_ok_elim [DecidableEq B] {c : Enums B M} {b : B} {t : Enums B M}
    (h : c.SetDefaultBasic b = .ok t) :
    ∃ e, mapFind c.mapBasicEnum b = some e ∧ c.SetDefault e = .ok t := by
  cases hf : mapFind c.mapBasicEnum b with
  | some e =>
    rw [setDefaultBasic_eq_found hf] at h
    exact ⟨e, rfl, h⟩
  | none =>
    rw [setDefaultBasic_eq_miss hf] at h
    exact Except.noConfusion h

theorem withDefaultCode_ok_elim {c : Enums B M} {k : Int} {t : Enums B M}
    (h : c.WithDefaultCode k = .ok t) :
    ∃ e, mapFind c.mapCode2Enum k = some e ∧ c.SetDefault e = .ok t := by
  cases hf : mapFind c.mapCode2Enum k with
  | some e =>
    rw [withDefaultCode_eq_found hf] at h
    exact ⟨e, rfl, h⟩
  | none =>
    rw [withDefaultCode_eq_miss hf] at h
    exact Except.noConfusion h

theorem withDefaultName_ok_elim {c : Enums B M} {n : String} {t : Enums B M}
    (h : c.WithDefaultName n = .ok t) :
    ∃ e, mapFind c.mapName2Enum n = some e ∧ c.SetDefault e = .ok t := by
  cases hf : mapFind c.mapName2Enum n with
  | some e =>
    rw [withDefaultName_eq_found hf] at h
    exact ⟨e, rfl, h⟩
  | none =>
    rw [withDefaultName_eq_miss hf] at h
    exact Except.noConfusion h

theorem newEnums_sample :
    NewEnums [sampleE0, sampleE1, sampleE2] = .ok sampleRegistry := by
  rfl

/-- C1: For every registry and every key (code, name, basic/plain value, or
proto value), the lenient lookups `GetByCode`/`GetByName`/`GetByBasic`/
`GetByProto` return the matching `Enum` when one is indexed under that key;
when no match exists and a default entry is set they return the default
entry; and when no match exists and no default entry is set they fail with
a `NoDefaultConfigured` kind of error (the panic of `must.Full` in
`GetDefault`). -/
theorem getBy_lenient_contract {B M : Type} [DecidableEq B] (s : Enums B M)
    (code : Int) (name : String) (basic : B) (proto : ProtoVal) :
    (∀ e, mapFind s.mapCode2Enum code = some e → s.GetByCode code = .ok e) ∧
    (∀ d, mapFind s.mapCode2Enum code = none → s.defaultValue = some d →
      s.GetByCode code = .ok d) ∧
    (mapFind s.mapCode2Enum code = none → s.defaultValue = none →
      s.GetByCode code = .error .noDefaultConfigured) ∧
    (∀ e, mapFind s.mapName2Enum name = some e → s.GetByName name = .ok e) ∧
    (∀ d, mapFind s.mapName2Enum name = none → s.defaultValue = some d →
      s.GetByName name = .ok d) ∧
    (mapFind s.mapName2Enum name = none → s.defaultValue = none →
      s.GetByName name = .error .noDefaultConfigured) ∧
    (∀ e, mapFind s.mapBasicEnum basic = some e → s.GetByBasic basic = .ok e) ∧
    (∀ d, mapFind s.mapBasicEnum basic = none → s.defaultValue = some d →
      s.GetByBasic basic = .ok d) ∧
    (mapFind s.mapBasicEnum basic = none → s.defaultValue = none →
      s.GetByBasic basic = .error .noDefaultConfigured) ∧
    (∀ e, mapFind s.mapProtoEnum proto = some e → s.GetByProto proto = .ok e) ∧
    (∀ d, mapFind s.mapProtoEnum proto = none → s.defaultValue = some d →
      s.GetByProto proto = .ok d) ∧
    (mapFind s.mapProtoEnum proto = none → s.defaultValue = none →
      s.GetByProto proto = .error .noDefaultConfigured) := by
  refine ⟨fun e he => getByCode_found he,
    fun d hm hd => by rw [getByCode_miss hm, getDefault_found hd],
    fun hm hd => by rw [getByCode_miss hm, getDefault_miss hd],
    fun e he => getByName_found he,
    fun d hm hd => by rw [getByName_miss hm, getDefault_found hd],
    fun hm hd => by rw [getByName_miss hm, getDefault_miss hd],
    fun e he => getByBasic_found he,
    fun d hm hd => by rw [getByBasic_miss hm, getDefault_found hd],
    fun hm hd => by rw [getByBasic_miss hm, getDefault_miss hd],
    fun e he => getByProto_found he,
    fun d hm hd => by rw [getByProto_miss hm, getDefault_found hd],
    fun hm hd => by rw [getByProto_miss hm, getDefault_miss hd]⟩

/-- Witness for C1: concrete hits, default fallbacks, and the failing
lookup on a registry without a default. -/
theorem getBy_lenient_contract_witness :
    sampleRegistry.GetByCode 1 = .ok sampleE1 ∧
    sampleRegistry.GetByCode 999 = .ok sampleE0 ∧
    sampleNoDefault.GetByCode 999 = .error .noDefaultConfigured ∧
    sampleRegistry.GetByName "FAILURE" = .ok sampleE2 ∧
    sampleRegistry.GetByBasic "nothing" = .ok sampleE0 ∧
    sampleRegistry.GetByProto ⟨2, "FAILURE"⟩ = .ok sampleE2 := by
  have h1 := (getBy_lenient_contract sampleRegistry 1 "" "" ⟨0, ""⟩).1 sampleE1 rfl
  have h2 := (getBy_lenient_contract sampleRegistry 999 "" "" ⟨0, ""⟩).2.1 sampleE0 rfl rfl
  have h3 := (getBy_lenient_contract sampleNoDefault 999 "" "" ⟨0, ""⟩).2.2.1 rfl rfl
  have h4 :=
    (getBy_lenient_contract sampleRegistry 0 "FAILURE" "" ⟨0, ""⟩).2.2.2.1 sampleE2 rfl
  have h5 :=
    (getBy_lenient_contract sampleRegistry 0 "" "nothing" ⟨0, ""⟩).2.2.2.2.2.2.2.1
      sampleE0 rfl rfl
  have h6 :=
    (getBy_lenient_contract sampleRegistry 0 "" "" ⟨2, "FAILURE"⟩).2.2.2.2.2.2.2.2.2.1
      sampleE2 rfl
  exact ⟨h1, h2, h3, h4, h5, h6⟩

/-- C2: For every registry and every key absent from the registry, the
strict lookups `MustGetByCode`/`MustGetByName`/`MustGetByBasic`/
`MustGetByProto` fail with a `NotFound` kind of error regardless of whether
a default entry is configured — the default entry is never consulted (the
result is invariant under replacing `defaultValue`) — and when the key is
present they return the matching `Enum`. -/
theorem mustGetBy_strict_contract {B M : Type} [DecidableEq B] (s : Enums B M)
    (code : Int) (name : String) (basic : B) (proto : ProtoVal) :
    (mapFind s.mapCode2Enum code = none → s.MustGetByCode code = .error .notFound) ∧
    (∀ e, mapFind s.mapCode2Enum code = some e → s.MustGetByCode code = .ok e) ∧
    (∀ dv, ({ s with defaultValue := dv } : Enums B M).MustGetByCode code =
      s.MustGetByCode code) ∧
    (mapFind s.mapName2Enum name = none → s.MustGetByName name = .error .notFound) ∧
    (∀ e, mapFind s.mapName2Enum name = some e → s.MustGetByName name = .ok e) ∧
    (∀ dv, ({ s with defaultValue := dv } : Enums B M).MustGetByName name =
      s.MustGetByName name) ∧
    (mapFind s.mapBasicEnum basic = none → s.MustGetByBasic basic = .error .notFound) ∧
    (∀ e, mapFind s.mapBasicEnum basic = some e → s.MustGetByBasic basic = .ok e) ∧
    (∀ dv, ({ s with defaultValue := dv } : Enums B M).MustGetByBasic basic =
      s.MustGetByBasic basic) ∧
    (mapFind s.mapProtoEnum proto = none → s.MustGetByProto proto = .error .notFound) ∧
    (∀ e, mapFind s.mapProtoEnum proto = some e → s.MustGetByProto proto = .ok e) ∧
    (∀ dv, ({ s with defaultValue := dv } : Enums B M).MustGetByProto proto =
      s.MustGetByProto proto) := by
  refine ⟨fun hm => mustGetByCode_miss hm, fun e he => mustGetByCode_found he,
    fun dv => rfl,
    fun hm => mustGetByName_miss hm, fun e he => mustGetByName_found he,
    fun dv => rfl,
    fun hm => mustGetByBasic_miss hm, fun e he => mustGetByBasic_found he,
    fun dv => rfl,
    fun hm => mustGetByProto_miss hm, fun e he => mustGetByProto_found he,
    fun dv => rfl⟩

/-- Witness for C2: a strict miss fails with `NotFound` although the sample
registry has a default configured, and a strict hit returns the entry. -/
theorem mustGetBy_strict_contract_witness :
    sampleRegistry.MustGetByCode 999 = .error .notFound ∧
    sampleRegistry.MustGetByCode 2 = .ok sampleE2 ∧
    sampleRegistry.MustGetByName "MISSING" = .error .notFound ∧
    sampleRegistry.MustGetByBasic "success" = .ok sampleE1 ∧
    sampleRegistry.MustGetByProto ⟨9, "NINE"⟩ = .error .notFound := by
  have h1 := (mustGetBy_strict_contract sampleRegistry 999 "" "" ⟨0, ""⟩).1 rfl
  have h2 := (mustGetBy_strict_contract sampleRegistry 2 "" "" ⟨0, ""⟩).2.1 sampleE2 rfl
  have h3 := (mustGetBy_strict_contract sampleRegistry 0 "MISSING" "" ⟨0, ""⟩).2.2.2.1 rfl
  have h4 :=
    (mustGetBy_strict_contract sampleRegistry 0 "" "success" ⟨0, ""⟩).2.2.2.2.2.2.2.1
      sampleE1 rfl
  have h5 :=
    (mustGetBy_strict_contract sampleRegistry 0 "" "" ⟨9, "NINE"⟩).2.2.2.2.2.2.2.2.2.1 rfl
  exact ⟨h1, h2, h3, h4, h5⟩

/-- C4: for a non-empty parameter list accepted by `NewEnums` the
registry's default entry is the first parameter and `GetDefault` returns
it; for the empty list construction succeeds with no default entry set. -/
theorem newEnums_default_is_first {B M : Type} [DecidableEq B]
    (params : List (Enum B M)) :
    (∀ s, NewEnums params = .ok s → s.defaultValue = params.head? ∧
      ∀ e, params.head? = some e → s.GetDefault = .ok e) ∧
    (∃ t, NewEnums ([] : List (Enum B M)) = .ok t ∧ t.defaultValue = none) := by
  constructor
  · intro s hs
    unfold NewEnums at hs
    have hdv : s.defaultValue = params.head? := (insertEnums_fields hs).2.1
    exact ⟨hdv, fun e he => getDefault_found (hdv.trans he)⟩
  · exact ⟨_, rfl, rfl⟩

/-- Witness for C4: the sample registry's default is its first entry. -/
theorem newEnums_default_is_first_witness :
    sampleRegistry.defaultValue = some sampleE0 ∧
    sampleRegistry.GetDefault = .ok sampleE0 := by
  have h := (newEnums_default_is_first [sampleE0, sampleE1, sampleE2]).1 sampleRegistry rfl
  exact ⟨h.1, h.2 sampleE0 rfl⟩

/-- C6: each entry accepted by `NewEnums` round-trips through each of its
three keys: the lenient lookups at its code, name and basic value return
exactly that entry. -/
theorem newEnums_roundtrip {B M : Type} [DecidableEq B] (params : List (Enum B M))
    (s : Enums B M) (h : NewEnums params = .ok s) (e : Enum B M) (he : e ∈ params) :
    s.GetByCode e.Code = .ok e ∧ s.GetByName e.Name = .ok e ∧
      s.GetByBasic e.Basic = .ok e := by
  unfold NewEnums at h
  obtain ⟨-, hc, hn, hb⟩ := insertEnums_find h e he
  exact ⟨getByCode_found hc, getByName_found hn, getByBasic_found hb⟩

/-- Witness for C6 at the middle sample entry. -/
theorem newEnums_roundtrip_witness :
    sampleRegistry.GetByCode sampleE1.Code = .ok sampleE1 ∧
    sampleRegistry.GetByName sampleE1.Name = .ok sampleE1 ∧
    sampleRegistry.GetByBasic sampleE1.Basic = .ok sampleE1 :=
  newEnums_roundtrip [sampleE0, sampleE1, sampleE2] sampleRegistry newEnums_sample
    sampleE1 (by decide)

/-- C7: `ListProtos` and `ListBasics` are exactly the `Proto`/`Basic`
projections of the constructor's parameters, in parameter sequence; the
empty registry yields empty sequences (the operations are total functions
in the embedding, hence never fail). -/
theorem list_projection_order {B M : Type} [DecidableEq B] (params : List (Enum B M))
    (s : Enums B M) (h : NewEnums params = .ok s) :
    s.ListProtos = params.map Enum.Proto ∧ s.ListBasics = params.map Enum.Basic ∧
      (params = [] → s.ListProtos = [] ∧ s.ListBasics = []) := by
  unfold NewEnums at h
  have he : s.enumElements = params := (insertEnums_fields h).1
  refine ⟨?_, ?_, ?_⟩
  · unfold Enums.ListProtos
    rw [he]
  · unfold Enums.ListBasics
    rw [he]
  · intro hnil
    subst hnil
    constructor
    · unfold Enums.ListProtos
      rw [he]
      rfl
    · unfold Enums.ListBasics
      rw [he]
      rfl

/-- Witness for C7: the sample registry lists its three protos and basics
in construction sequence. -/
theorem list_projection_order_witness :
    sampleRegistry.ListProtos = [sampleE0.Proto, sampleE1.Proto, sampleE2.Proto] ∧
    sampleRegistry.ListBasics = ["unknown", "success", "failure"] := by
  have h := list_projection_order [sampleE0, sampleE1, sampleE2] sampleRegistry rfl
  exact ⟨h.1, h.2.1⟩

/-- C9: `SetDefault` right after a successful `UnsetDefault` succeeds and
`GetDefault` then returns the new entry; a second `SetDefault` without an
intervening `UnsetDefault` fails with an `InvalidState` kind of error and
the current default stays observable; `UnsetDefault` with no default set
also fails with `InvalidState`. -/
theorem default_lifecycle {B M : Type} [DecidableEq B] (s : Enums B M)
    (e e' : Enum B M) :
    (∀ t, s.UnsetDefault = .ok t →
      ∃ u, t.SetDefault e = .ok u ∧ u.GetDefault = .ok e) ∧
    (∀ u, s.SetDefault e = .ok u →
      u.SetDefault e' = .error .invalidState ∧ u.GetDefault = .ok e) ∧
    (s.defaultValue = none → s.UnsetDefault = .error .invalidState) := by
  refine ⟨?_, ?_, ?_⟩
  · intro t ht
    obtain ⟨-, rfl⟩ := (unsetDefault_ok_iff s t).mp ht
    exact ⟨_, (setDefault_ok_iff _ e _).mpr ⟨rfl, rfl⟩, getDefault_found rfl⟩
  · intro u hu
    obtain ⟨-, rfl⟩ := (setDefault_ok_iff s e u).mp hu
    exact ⟨rfl, getDefault_found rfl⟩
  · intro hd
    unfold Enums.UnsetDefault
    rw [hd]

/-- Witness for C9: the lifecycle at the sample registry — unset then set
succeeds and updates the default, and the failing cases fail with
`InvalidState`. -/
theorem default_lifecycle_witness :
    (∃ u, sampleNoDefault.SetDefault sampleE1 = .ok u ∧
      u.GetDefault = .ok sampleE1) ∧
    sampleWithE1.SetDefault sampleE2 = .error .invalidState ∧
    sampleNoDefault.UnsetDefault = .error .invalidState := by
  have h1 := (default_lifecycle sampleRegistry sampleE1 sampleE2).1 sampleNoDefault rfl
  have h2 := (default_lifecycle sampleNoDefault sampleE1 sampleE2).2.1 sampleWithE1 rfl
  have h3 := (default_lifecycle sampleNoDefault sampleE1 sampleE2).2.2 rfl
  exact ⟨h1, h2.1, h3⟩

/-- C3: `NewEnums` fails with a `DuplicateKey` kind of error whenever the
parameter list contains two entries with an equal code, an equal name, or
an equal basic value (no partially built registry is returned: the error
result carries no registry), and succeeds whenever codes, names and basic
values are pairwise distinct. -/
theorem newEnums_duplicate_validation {B M : Type} [DecidableEq B]
    (params : List (Enum B M)) :
    (¬ params.Pairwise DistinctKeys → NewEnums params = .error .duplicateKey) ∧
    (params.Pairwise DistinctKeys → ∃ s, NewEnums params = .ok s) := by
  constructor
  · intro hnd
    unfold NewEnums
    rcases insertEnums_total params (initEnums params) with ⟨t, ht⟩ | herr
    · exact absurd (insertEnums_pairwise ht) hnd
    · exact herr
  · intro hd
    unfold NewEnums
    exact insertEnums_ok_of (fun e he => ⟨rfl, rfl, rfl, rfl⟩) hd

/-- Witness for C3: a code collision (codes 0 and 0 with distinct names and
basic values) is rejected with `DuplicateKey`, and the three pairwise
distinct sample entries are accepted. -/
theorem newEnums_duplicate_validation_witness :
    NewEnums [sampleE0, ⟨⟨0, "ZERO"⟩, "zero", ()⟩] = .error .duplicateKey ∧
    (∃ s, NewEnums [sampleE0, sampleE1, sampleE2] = .ok s) := by
  constructor
  · exact (newEnums_duplicate_validation [sampleE0, ⟨⟨0, "ZERO"⟩, "zero", ()⟩]).1
      (by decide)
  · exact (newEnums_duplicate_validation [sampleE0, sampleE1, sampleE2]).2 (by decide)

/-- C8 counterexample: a reachable registry state with a default entry set
and not marked valid on which `ListValidProtos` does not have length one
less than the element count — the default `sampleOther` was installed by
`SetDefault` without membership validation, its code matches no element,
so the filter drops nothing. -/
theorem listValid_length_counterexample :
    Reachable sampleBadDefault ∧
    sampleBadDefault.defaultValue = some sampleOther ∧
    GetPointerValue sampleBadDefault.defaultValid = false ∧
    sampleBadDefault.ListValidProtos.length ≠
      sampleBadDefault.enumElements.length - 1 := by
  refine ⟨?_, rfl, rfl, by decide⟩
  exact Reachable.setDefault sampleNoDefault sampleBadDefault sampleOther
    (Reachable.unsetDefault sampleRegistry sampleNoDefault
      (Reachable.construct [sampleE0, sampleE1, sampleE2] sampleRegistry newEnums_sample)
      rfl)
    rfl

/-- C8 amended: for a registry with a default entry set and not marked
valid, in which exactly one element's code equals the default entry's code
(as in any registry built by `NewEnums` whose default is a member of the
elements), `ListValidProtos` drops exactly the elements with the default's
code and has length one less than the element count; after `UnsetDefault`,
or after `SetDefaultValid true`, `ListValidProtos` equals `ListProtos`. -/
theorem listValidProtos_exclusion {B M : Type} [DecidableEq B] (s : Enums B M) :
    (∀ d, s.defaultValue = some d → GetPointerValue s.defaultValid = false →
      (s.enumElements.filter (fun e => decide (e.Code = d.Code))).length = 1 →
      s.ListValidProtos =
        (s.enumElements.filter (fun e => decide (e.Code ≠ d.Code))).map Enum.Proto ∧
      s.ListValidProtos.length = s.enumElements.length - 1) ∧
    (∀ t, s.UnsetDefault = .ok t → t.ListValidProtos = t.ListProtos) ∧
    (∀ t, s.SetDefaultValid true = .ok t → t.ListValidProtos = t.ListProtos) := by
  refine ⟨?_, ?_, ?_⟩
  · intro d hd hv hcount
    have heq : s.ListValidProtos =
        (s.enumElements.filter (fun e => decide (e.Code ≠ d.Code))).map Enum.Proto := by
      unfold Enums.ListValidProtos
      rw [hd, hv]
      simp
    refine ⟨heq, ?_⟩
    rw [heq, List.length_map]
    have hsplit := List.length_eq_length_filter_add
      (l := s.enumElements) (fun e => decide (e.Code = d.Code))
    rw [hcount] at hsplit
    have hnot : (s.enumElements.filter
        (fun e => !(decide (e.Code = d.Code)))).length =
        (s.enumElements.filter (fun e => decide (e.Code ≠ d.Code))).length := by
      simp [ne_eq]
    omega
  · intro t ht
    obtain ⟨-, rfl⟩ := (unsetDefault_ok_iff s t).mp ht
    unfold Enums.ListValidProtos
    rfl
  · intro t ht
    obtain ⟨-, -, rfl⟩ := (setDefaultValid_ok_iff s true t).mp ht
    unfold Enums.ListValidProtos
    cases hd : s.defaultValue with
    | none => rfl
    | some d => rfl

/-- Witness for C8: the sample registry (default `sampleE0`, not marked
valid) lists the two non-default protos; after `UnsetDefault` or after
`SetDefaultValid true` the full list returns. -/
theorem listValidProtos_exclusion_witness :
    sampleRegistry.ListValidProtos = [sampleE1.Proto, sampleE2.Proto] ∧
    sampleRegistry.ListValidProtos.length = 2 ∧
    sampleNoDefault.ListValidProtos = sampleNoDefault.ListProtos ∧
    ({ sampleRegistry with defaultValid := some true } :
      Enums String Unit).ListValidProtos =
      ({ sampleRegistry with defaultValid := some true } :
        Enums String Unit).ListProtos := by
  have h := (listValidProtos_exclusion sampleRegistry).1 sampleE0 rfl rfl (by decide)
  have h2 := (listValidProtos_exclusion sampleRegistry).2.1 sampleNoDefault rfl
  have h3 := (listValidProtos_exclusion sampleRegistry).2.2
    ({ sampleRegistry with defaultValid := some true }) rfl
  exact ⟨h.1, h.2, h2, h3⟩

theorem reachableMem_inv {B M : Type} [DecidableEq B] {s : Enums B M}
    (h : ReachableMem s) : MapsIntoElements s ∧ DefaultInElements s := by
  induction h with
  | construct params s hs =>
    unfold NewEnums at hs
    have helems : s.enumElements = params := (insertEnums_fields hs).1
    have hmaps := insertEnums_values hs
      (fun k v hv => by exact absurd hv (by simp [initEnums, mapFind]))
      (fun k v hv => by exact absurd hv (by simp [initEnums, mapFind]))
      (fun k v hv => by exact absurd hv (by simp [initEnums, mapFind]))
      (fun k v hv => by exact absurd hv (by simp [initEnums, mapFind]))
      (fun e he => he)
    constructor
    · refine ⟨?_, ?_, ?_, ?_⟩
      · intro k v hv
        rw [helems]
        exact hmaps.1 k v hv
      · intro k v hv
        rw [helems]
        exact hmaps.2.1 k v hv
      · intro k v hv
        rw [helems]
        exact hmaps.2.2.1 k v hv
      · intro k v hv
        rw [helems]
        exact hmaps.2.2.2 k v hv
    · intro d hd
      have hdv : s.defaultValue = params.head? := (insertEnums_fields hs).2.1
      rw [helems]
      rw [hdv] at hd
      cases params with
      | nil => exact Option.noConfusion hd
      | cons a rest =>
        have : a = d := Option.some.inj hd
        exact this ▸ List.mem_cons_self a rest
  | setDefault s t e hr hmem hok ih =>
    obtain ⟨-, rfl⟩ := (setDefault_ok_iff s e t).mp hok
    refine ⟨ih.1, fun d hd => ?_⟩
    have hde : e = d := Option.some.inj hd
    exact hde ▸ hmem
  | setDefaultProto s t p hr hok ih =>
    obtain ⟨e, hfind, hok'⟩ := setDefaultProto_ok_elim hok
    obtain ⟨-, rfl⟩ := (setDefault_ok_iff s e t).mp hok'
    refine ⟨ih.1, fun d hd => ?_⟩
    have hde : e = d := Option.some.inj hd
    exact hde ▸ ih.1.1 p e hfind
  | setDefaultBasic s t b hr hok ih =>
    obtain ⟨e, hfind, hok'⟩ := setDefaultBasic_ok_elim hok
    obtain ⟨-, rfl⟩ := (setDefault_ok_iff s e t).mp hok'
    refine ⟨ih.1, fun d hd => ?_⟩
    have hde : e = d := Option.some.inj hd
    exact hde ▸ ih.1.2.2.2 b e hfind
  | setDefaultValid s t v hr hok ih =>
    obtain ⟨-, -, rfl⟩ := (setDefaultValid_ok_iff s v t).mp hok
    exact ⟨ih.1, fun d hd => ih.2 d hd⟩
  | unsetDefault s t hr hok ih =>
    obtain ⟨-, rfl⟩ := (unsetDefault_ok_iff s t).mp hok
    exact ⟨ih.1, fun d hd => Option.noConfusion hd⟩
  | withDefault s t e hr hmem hok ih =>
    obtain ⟨-, rfl⟩ := (setDefault_ok_iff s e t).mp hok
    refine ⟨ih.1, fun d hd => ?_⟩
    have hde : e = d := Option.some.inj hd
    exact hde ▸ hmem
  | withDefaultProto s t p hr hok ih =>
    obtain ⟨e, hfind, hok'⟩ := setDefaultProto_ok_elim hok
    obtain ⟨-, rfl⟩ := (setDefault_ok_iff s e t).mp hok'
    refine ⟨ih.1, fun d hd => ?_⟩
    have hde : e = d := Option.some.inj hd
    exact hde ▸ ih.1.1 p e hfind
  | withDefaultBasic s t b hr hok ih =>
    obtain ⟨e, hfind, hok'⟩ := setDefaultBasic_ok_elim hok
    obtain ⟨-, rfl⟩ := (setDefault_ok_iff s e t).mp hok'
    refine ⟨ih.1, fun d hd => ?_⟩
    have hde : e = d := Option.some.inj hd
    exact hde ▸ ih.1.2.2.2 b e hfind
  | withDefaultCode s t k hr hok ih =>
    obtain ⟨e, hfind, hok'⟩ := withDefaultCode_ok_elim hok
    obtain ⟨-, rfl⟩ := (setDefault_ok_iff s e t).mp hok'
    refine ⟨ih.1, fun d hd => ?_⟩
    have hde : e = d := Option.some.inj hd
    exact hde ▸ ih.1.2.1 k e hfind
  | withDefaultName s t n hr hok ih =>
    obtain ⟨e, hfind, hok'⟩ := withDefaultName_ok_elim hok
    obtain ⟨-, rfl⟩ := (setDefault_ok_iff s e t).mp hok'
    refine ⟨ih.1, fun d hd => ?_⟩
    have hde : e = d := Option.some.inj hd
    exact hde ▸ ih.1.2.2.1 n e hfind
  | withDefaultValid s t v hr hok ih =>
    obtain ⟨-, -, rfl⟩ := (setDefaultValid_ok_iff s v t).mp hok
    exact ⟨ih.1, fun d hd => ih.2 d hd⟩
  | withUnsetDefault s t hr hok ih =>
    obtain ⟨-, rfl⟩ := (unsetDefault_ok_iff s t).mp hok
    exact ⟨ih.1, fun d hd => Option.noConfusion hd⟩

/-- C5 counterexample: the claim as stated is false on the code. The state
`sampleBadDefault` is reachable (construct with one entry set aside, unset
the default, then `SetDefault` with the outside entry `sampleOther`, which
`SetDefault` accepts without a membership check), yet its default entry is
not a member of its element list. -/
theorem default_member_counterexample :
    ¬ (∀ s : Enums String Unit, Reachable s → ∀ d, s.defaultValue = some d →
        d ∈ s.enumElements) := by
  intro hclaim
  have hr0 : Reachable sampleRegistry :=
    Reachable.construct [sampleE0, sampleE1, sampleE2] sampleRegistry newEnums_sample
  have hr1 : Reachable sampleNoDefault :=
    Reachable.unsetDefault sampleRegistry sampleNoDefault hr0 rfl
  have hr2 : Reachable sampleBadDefault :=
    Reachable.setDefault sampleNoDefault sampleBadDefault sampleOther hr1 rfl
  have hmem := hclaim sampleBadDefault hr2 sampleOther rfl
  exact absurd hmem (by decide)

/-- C5 amended: in every registry state reachable from construction through
the default-management operations in which each raw `SetDefault`/
`WithDefault` step is given an entry already in the element list (the keyed
variants `SetDefaultProto`/`SetDefaultBasic`/`WithDefaultCode`/
`WithDefaultName` validate membership themselves via strict lookups), the
default entry, whenever one is present, is a member of the registry's
element list. -/
theorem default_member_of_reachable_mem {B M : Type} [DecidableEq B] {s : Enums B M}
    (h : ReachableMem s) :
    ∀ d, s.defaultValue = some d → d ∈ s.enumElements :=
  (reachableMem_inv h).2

/-- Witness for the amended C5: the freshly constructed sample registry is
reachable and its default `sampleE0` is one of its elements. -/
theorem default_member_of_reachable_mem_witness :
    sampleE0 ∈ sampleRegistry.enumElements :=
  default_member_of_reachable_mem
    (ReachableMem.construct [sampleE0, sampleE1, sampleE2] sampleRegistry newEnums_sample)
    sampleE0 rfl

end Protoenum
